import Mathlib

/-!
A shallow embedding of the core of the `github-statcrab` service
(an HTTP service rendering SVG GitHub stat cards), together with
theorems settling a list of claims about it.

The embedding follows the Rust sources:
* `src/cards/card.rs` — card frame validation (`Card::validate`, `Card::new`);
* `src/cards/stats_card.rs` — stats-card height computation;
* `src/cards/langs_card.rs` — language grouping (`from_edges`), ranking
  (`rank`, `ranked`, `top_n`);
* `src/github/api.rs` — rate-limit admission (`check_rate_limit_with_data`)
  and username validation (`validate_username`);
* `src/github/cache.rs` — the cache's `get_or_insert` operations, modelled as
  an interleaving semantics over explicit schedules;
* `src/web/routes.rs` — query-parameter decoding (`CardSettingsQuery::into_settings`)
  and the langs-card layout default.

Machine integers (`u32`, `u64`, `usize`) are modelled as `Nat`; none of the
verified operations can overflow on the value ranges they are applied to
(offsets, pixel sizes, counters).  `f32` arithmetic inside `Card::validate`
is modelled exactly (round-to-nearest-even at 24 significand bits).  `f64`
scores in the ranking engine are modelled by real numbers.
-/

namespace Statcrab

/-! ### f32 model for `Card::validate` (src/cards/card.rs lines 133-134)

`Card::validate` computes `(width as f32 * 0.3) as u32`.  The literal `0.3f32`
is exactly `10066330 / 2 ^ 25`.  Both the `u32 → f32` conversion and the `f32`
multiplication round to nearest, ties to even, at 24 significand bits; the
final `as u32` truncates toward zero.  All intermediate values lie far inside
the normal range of `f32` (inputs are below `2 ^ 32`), so no overflow or
subnormal behaviour arises and the dyadic model below is exact. -/

/-- Fuel-driven binary digit count (the fuel only bounds the recursion depth;
`bitLenAux fuel n` equals the digit count whenever `n ≤ fuel`). -/
def bitLenAux : Nat → Nat → Nat
  | 0, _ => 0
  | fuel + 1, n => if n = 0 then 0 else bitLenAux fuel (n / 2) + 1

/-- Number of binary digits of `n` (`0` for `0`), i.e. `⌊log2 n⌋ + 1` for
positive `n`.  Defined by fuel so that it reduces inside the kernel. -/
def bitLen (n : Nat) : Nat := bitLenAux n n

/-- Round a positive natural `n` to 24 significant binary digits,
nearest, ties to even.  Returns `(m, t)` with the rounded value `m * 2 ^ t`. -/
def roundSig24 (n : Nat) : Nat × Nat :=
  let bits := bitLen n
  if bits ≤ 24 then (n, 0)
  else
    let t := bits - 24
    let q := n / 2 ^ t
    let r := n % 2 ^ t
    let half := 2 ^ (t - 1)
    if half < r ∨ (r = half ∧ q % 2 = 1) then (q + 1, t) else (q, t)

/-- The value of `w as f32` for a `u32` value `w` (an integer for all `w < 2 ^ 32`). -/
def toF32 (w : Nat) : Nat :=
  (roundSig24 w).1 * 2 ^ (roundSig24 w).2

/-- `(w as f32 * 0.3) as u32` from `Card::validate`:
multiply the `f32` value of `w` by `0.3f32 = 10066330 / 2 ^ 25` exactly,
round the product to 24 significant bits (nearest, ties to even),
then truncate to an integer. -/
def maxOffsetF32 (w : Nat) : Nat :=
  let p := toF32 w * 10066330
  let m := roundSig24 p
  m.1 * 2 ^ m.2 / 2 ^ 25

/-! ### Card settings and the card frame (src/cards/card.rs)

`CardSettings` omits the `theme` field: the theme enum is produced by the
`build_card_themes!` macro at build time and plays no role in validation or
in any of the claims below. -/

/-- `CardSettings` from src/cards/card.rs (without the build-time `theme` enum). -/
structure CardSettings where
  offset_x : Nat
  offset_y : Nat
  hide_title : Bool
  hide_background : Bool
  hide_background_stroke : Bool
deriving DecidableEq

/-- `Card` from src/cards/card.rs (the `style` field, loaded from an asset
file, is omitted: it is not read by `validate`). -/
structure Card where
  width : Nat
  height : Nat
  title : String
  description : String
  body : String
  outer_class : String
  settings : CardSettings
deriving DecidableEq

/-- `Card::TITLE_FONT_SIZE`. -/
def Card.TITLE_FONT_SIZE : Nat := 18

/-- `Card::validate` from src/cards/card.rs lines 120-152.  Error strings keep
the static part of the source's format strings. -/
def Card.validate (c : Card) : Except String Unit :=
  if c.width < 100 then
    Except.error ("Card width must be at least 100")
  else if c.height < 60 then
    Except.error ("Card height must be at least 100")
  else if c.settings.offset_x > maxOffsetF32 c.width
      ∨ c.settings.offset_y > maxOffsetF32 c.height then
    Except.error ("Card offset must not exceed 30 percent of width or height")
  else if c.settings.offset_x ≥ c.width / 2 ∨ c.settings.offset_y ≥ c.height / 2 then
    Except.error ("Card offset must be less than half of width and height")
  else
    Except.ok ()

/-- `Card::new` from src/cards/card.rs lines 43-64: build the record, run
`validate`, return the card on success. -/
def Card.new (width height : Nat) (title description body outer_class : String)
    (settings : CardSettings) : Except String Card :=
  let card : Card :=
    ⟨width, height, title, description, body, outer_class, settings⟩
  (card.validate).map (fun _ => card)

/-! ### Rate-limit admission (src/github/api.rs) -/

/-- `GitHubRateLimit` from src/github/api.rs lines 10-16 (`u64` fields as `Nat`). -/
structure GitHubRateLimit where
  limit : Option Nat
  remaining : Option Nat
  used : Option Nat
  reset : Option Nat
deriving DecidableEq

/-- `check_rate_limit_with_data` from src/github/api.rs lines 74-100.
The wall clock read (`SystemTime::now` seconds since the epoch, `0` on error)
is passed in explicitly as `current_time`.  The error value models
`GitHubApiError::RateLimitProtection(remaining, reset_time)`. -/
def check_rate_limit_with_data (rl : GitHubRateLimit) (current_time : Nat) :
    Except (Nat × Nat) Unit :=
  match rl.remaining, rl.reset with
  | some remaining, some reset_time =>
    if remaining < 100 then
      if current_time < reset_time then
        Except.error (remaining, reset_time)
      else
        Except.ok ()
    else
      Except.ok ()
  | _, _ => Except.ok ()

/-! ### Username validation (src/github/api.rs lines 124-156)

Usernames are modelled as lists of Unicode scalar values (`List Char`), and
`str::len` as the UTF-8 byte length.  Rust's `char::is_whitespace` (the
Unicode `White_Space` property) is a small closed set and is modelled in
full.  Rust's `char::is_alphanumeric` ranges over the full Unicode
`Alphabetic`/`Nd`/`Nl`/`No` tables; `validate_username` therefore takes the
predicate as a parameter, and `rustIsAlphanumericLatin1` instantiates it
faithfully on code points below `0x100` (the only ones the concrete theorems
use), returning `false` above. -/

/-- Rust `char::is_whitespace`: the Unicode `White_Space` code points. -/
def rustIsWhitespace (c : Char) : Bool :=
  [0x09, 0x0A, 0x0B, 0x0C, 0x0D, 0x20, 0x85, 0xA0, 0x1680,
   0x2000, 0x2001, 0x2002, 0x2003, 0x2004, 0x2005, 0x2006, 0x2007,
   0x2008, 0x2009, 0x200A, 0x2028, 0x2029, 0x202F, 0x205F, 0x3000].contains c.toNat

/-- UTF-8 encoded length of one scalar value. -/
def utf8CharLen (c : Char) : Nat :=
  if c.toNat < 0x80 then 1
  else if c.toNat < 0x800 then 2
  else if c.toNat < 0x10000 then 3
  else 4

/-- Rust `str::len`: the UTF-8 byte length. -/
def utf8ByteLength (u : List Char) : Nat :=
  (u.map utf8CharLen).sum

/-- Rust `str::trim`: drop `White_Space` characters from both ends. -/
def trimRust (u : List Char) : List Char :=
  ((u.dropWhile rustIsWhitespace).reverse.dropWhile rustIsWhitespace).reverse

/-- Rust `char::is_alphanumeric` restricted to code points below `0x100`
(ASCII alphanumerics plus the Latin-1 letters `ª µ º À-Ö Ø-ö ø-ÿ` and the
numeric characters `² ³ ¹ ¼ ½ ¾`, per the Unicode tables); `false` above. -/
def rustIsAlphanumericLatin1 (c : Char) : Bool :=
  let n := c.toNat
  (0x30 ≤ n && n ≤ 0x39) || (0x41 ≤ n && n ≤ 0x5A) || (0x61 ≤ n && n ≤ 0x7A) ||
  (n == 0xAA) || (n == 0xB5) || (n == 0xBA) ||
  (n == 0xB2) || (n == 0xB3) || (n == 0xB9) ||
  (n == 0xBC) || (n == 0xBD) || (n == 0xBE) ||
  (0xC0 ≤ n && n ≤ 0xD6) || (0xD8 ≤ n && n ≤ 0xF6) || (0xF8 ≤ n && n ≤ 0xFF)

/-- `GitHubApi::validate_username` from src/github/api.rs lines 124-156,
parameterised by the model of `char::is_alphanumeric`. -/
def validate_username (isAlnum : Char → Bool) (u : List Char) : Except String Unit :=
  if (trimRust u).isEmpty then
    Except.error ("Username cannot be empty")
  else if u.contains ' ' then
    Except.error ("Username cannot contain spaces")
  else if utf8ByteLength u > 39 then
    Except.error ("Username too long")
  else if !(u.all (fun c => isAlnum c || c == '-')) then
    Except.error ("Username contains invalid characters")
  else if u.head? = some '-' ∨ u.getLast? = some '-' then
    Except.error ("Username cannot start or end with hyphen")
  else
    Except.ok ()

/-! ### Stats card height (src/cards/stats_card.rs) -/

/-- `StatsCard::TITLE_BODY_OFFSET`. -/
def StatsCard.TITLE_BODY_OFFSET : Nat := 1

/-- `StatsCard::ICON_SIZE`. -/
def StatsCard.ICON_SIZE : Nat := 15

/-- `StatsCard::ROW_Y_STEP`. -/
def StatsCard.ROW_Y_STEP : Nat := 27

/-- `StatsCard` from src/cards/stats_card.rs lines 3-14 (`Option<u32>` counters as `Option Nat`). -/
structure StatsCard where
  card_settings : CardSettings
  username : String
  stars_count : Option Nat
  commits_ytd_count : Option Nat
  issues_count : Option Nat
  pull_requests_count : Option Nat
  merge_requests_count : Option Nat
  reviews_count : Option Nat
  started_discussions_count : Option Nat
  answered_discussions_count : Option Nat
deriving DecidableEq

/-- The `lines` vector built by `StatsCard::render` (lines 73-151): one entry
per `Some` counter, pushed in the fixed source order.  Only the labels are
kept; the height computation reads only `lines.len()`. -/
def StatsCard.lineLabels (c : StatsCard) : List String :=
  (match c.stars_count with | some _ => [("Stars")] | none => []) ++
  (match c.commits_ytd_count with | some _ => [("Commits YTD")] | none => []) ++
  (match c.issues_count with | some _ => [("Issues")] | none => []) ++
  (match c.pull_requests_count with | some _ => [("Pull Requests")] | none => []) ++
  (match c.merge_requests_count with | some _ => [("Merge Requests")] | none => []) ++
  (match c.reviews_count with | some _ => [("Reviews")] | none => []) ++
  (match c.started_discussions_count with | some _ => [("Started Discussions")] | none => []) ++
  (match c.answered_discussions_count with | some _ => [("Answered Discussions")] | none => [])

/-- The card height computed by `StatsCard::render` (src/cards/stats_card.rs
lines 53-163): `header_size_y` is `0` when the title is hidden and
`TITLE_FONT_SIZE + TITLE_BODY_OFFSET` otherwise; `line_count` is
`lines.len().max(1)`. -/
def StatsCard.height (c : StatsCard) : Nat :=
  let header_size_y :=
    if c.card_settings.hide_title then 0
    else Card.TITLE_FONT_SIZE + StatsCard.TITLE_BODY_OFFSET
  let line_count := max (c.lineLabels).length 1
  if c.card_settings.hide_title then
    c.card_settings.offset_y * 2 + StatsCard.ICON_SIZE +
      (line_count - 1) * StatsCard.ROW_Y_STEP
  else
    header_size_y + line_count * StatsCard.ROW_Y_STEP + c.card_settings.offset_y * 2

/-- Modelled from the spec (§4.J, §8): the claimed height formula, with `rows`
the number of visible counters (not clamped).  With the title hidden the
claimed `(rows - 1)` is read as truncated subtraction. -/
def specStatsHeight (hide_title : Bool) (offset_y rows : Nat) : Nat :=
  if hide_title then
    2 * offset_y + StatsCard.ICON_SIZE + (rows - 1) * StatsCard.ROW_Y_STEP
  else
    (Card.TITLE_FONT_SIZE + StatsCard.TITLE_BODY_OFFSET) +
      rows * StatsCard.ROW_Y_STEP + 2 * offset_y

/-! ### Language grouping and ranking (src/cards/langs_card.rs) -/

/-- `LangEdge` from src/cards/langs_card.rs lines 9-15. -/
structure LangEdge where
  name : String
  size_bytes : Nat
deriving DecidableEq

/-- `LanguageStat` from src/cards/langs_card.rs lines 19-27. -/
structure LanguageStat where
  name : String
  size_bytes : Nat
  repo_count : Nat
deriving DecidableEq

/-- The body of the `from_edges` loop for one stat already in the map:
`entry.size_bytes += edge.size_bytes; entry.repo_count += 1`. -/
def LanguageStat.updateWith (e : LangEdge) (s : LanguageStat) : LanguageStat :=
  ⟨s.name, s.size_bytes + e.size_bytes, s.repo_count + 1⟩

/-- One iteration of the `from_edges` loop (src/cards/langs_card.rs lines
35-46): `stats_map.entry(edge.name).or_insert_with(zero)` followed by the two
increments, with the `HashMap` modelled as an association list in
first-insertion order (the claims are insensitive to iteration order). -/
def addEdge (acc : List LanguageStat) (e : LangEdge) : List LanguageStat :=
  if acc.any (fun s => s.name == e.name) then
    acc.map (fun s => if s.name == e.name then LanguageStat.updateWith e s else s)
  else
    acc ++ [⟨e.name, e.size_bytes, 1⟩]

/-- `LanguageStat::from_edges` from src/cards/langs_card.rs lines 32-49. -/
def from_edges (edges : List LangEdge) : List LanguageStat :=
  edges.foldl addEdge []

/-- Specification helper for `from_edges`: replay the edges of one language
onto the (at most one) stat currently recorded for it. -/
def applyEdges (n : String) (cur : List LanguageStat) : List LangEdge → List LanguageStat
  | [] => cur
  | m :: rest =>
    applyEdges n
      (match cur with
       | [] => [⟨n, m.size_bytes, 1⟩]
       | l => l.map (LanguageStat.updateWith m))
      rest

/-- `LanguageStat::rank` from src/cards/langs_card.rs lines 52-54.  The `f64`
computation `(size as f64).powf(a) * (count as f64).powf(b)` is modelled over
the reals with `rpow` (which, like `powf`, satisfies `0 ^ 0 = 1`). -/
noncomputable def LanguageStat.rank (s : LanguageStat) (size_weight count_weight : ℝ) : ℝ :=
  (s.size_bytes : ℝ) ^ size_weight * (s.repo_count : ℝ) ^ count_weight

/-- `LanguageStatsExt::ranked` from src/cards/langs_card.rs lines 75-89:
pair every stat with its precomputed rank, sort descending by rank
(`b.0.partial_cmp(&a.0).unwrap_or(Equal)`), drop the ranks.  The unstable
sort of the source is modelled by a merge sort over the same comparator;
the claims do not depend on the order of equal-scored entries. -/
noncomputable def ranked (l : List LanguageStat) (size_weight count_weight : ℝ) :
    List LanguageStat :=
  ((l.map (fun s => (s.rank size_weight count_weight, s))).mergeSort
    (fun x y => decide (y.1 ≤ x.1))).map Prod.snd

/-- `LanguageStatsExt::top_n` from src/cards/langs_card.rs lines 67-71:
`ranked` followed by `truncate(n)`. -/
noncomputable def top_n (l : List LanguageStat) (size_weight count_weight : ℝ) (n : Nat) :
    List LanguageStat :=
  (ranked l size_weight count_weight).take n

/-! ### Route-level query decoding (src/web/routes.rs) -/

/-- `LayoutType` from src/cards/langs_card.rs lines 97-100. -/
inductive LayoutType where
  | vertical
  | horizontal
deriving DecidableEq

/-- `LayoutTypeQuery` from src/web/routes.rs lines 294-300. -/
inductive LayoutTypeQuery where
  | horizontal
  | vertical
deriving DecidableEq

/-- `From<LayoutTypeQuery> for LayoutType` (src/web/routes.rs lines 302-309). -/
def layoutOfQuery : LayoutTypeQuery → LayoutType
  | LayoutTypeQuery.horizontal => LayoutType.horizontal
  | LayoutTypeQuery.vertical => LayoutType.vertical

/-- The layout selected by `get_langs_card` (src/web/routes.rs line 182):
`q.layout.unwrap_or(LayoutTypeQuery::Horizontal).into()`. -/
def langs_card_layout (q : Option LayoutTypeQuery) : LayoutType :=
  layoutOfQuery (q.getD LayoutTypeQuery.horizontal)

/-- Rust `str::parse::<u32>` on the digits after an optional sign:
nonempty, all ASCII digits, value below `2 ^ 32`. -/
def parseDigits (cs : List Char) : Option Nat :=
  if cs.isEmpty then none
  else if cs.all (fun c => c.isDigit) then
    let v := cs.foldl (fun a c => a * 10 + (c.toNat - 48)) 0
    if v < 2 ^ 32 then some v else none
  else none

/-- Rust `str::parse::<u32>`: an optional leading `+`, then digits;
fails on anything else (including negative numbers and overflow). -/
def parse_u32 (s : String) : Option Nat :=
  match s.data with
  | '+' :: rest => parseDigits rest
  | cs => parseDigits cs

/-- `CardSettingsQuery` from src/web/routes.rs lines 217-226 (the `theme`
field, whose type is produced by the `build_theme_query!` macro, is omitted;
it is not involved in the claims below). -/
structure CardSettingsQuery where
  offset_x : Option String
  offset_y : Option String
  hide_title : Option String
  hide_background : Option String
  hide_background_stroke : Option String
deriving DecidableEq

/-- `CardSettingsQuery::into_settings` from src/web/routes.rs lines 229-261:
offsets fall back to `12` when absent or unparsable, the three `hide` flags
are `true` exactly when the parameter is the literal string `true`. -/
def into_settings (q : CardSettingsQuery) : CardSettings :=
  { offset_x := (q.offset_x.bind parse_u32).getD 12
    offset_y := (q.offset_y.bind parse_u32).getD 12
    hide_title := (q.hide_title.map (fun s => s == "true")).getD false
    hide_background := (q.hide_background.map (fun s => s == "true")).getD false
    hide_background_stroke := (q.hide_background_stroke.map (fun s => s == "true")).getD false }

/-! ### The cache's `get_or_insert` operations (src/github/cache.rs)

`get_or_insert_user_stats` (lines 126-148) and `get_or_insert_user_languages`
(lines 151-177) have the same shape: `cache.get(key).await`; on a miss,
`fetch_fn().await` and then `cache.insert(key, value).await`.  The model
below is an interleaving semantics for several tasks all calling
`get_or_insert` with the same key, one atomic step per await point:

* `ready → done v`        — the `get` returned `Some(v)` (cache hit);
* `ready → fetching`      — the `get` missed and the task's producer
  (`fetch_fn`) was invoked;
* `fetching → inserting v` — the producer completed with value `v`;
* `inserting v → done v`  — the `insert` wrote `v`; the caller returns `v`.

`producer i` is the value returned by task `i`'s producer (each caller passes
its own closure, and separate upstream fetches may return different values).
The state tracks the number of producer invocations, the number of currently
running producers, and the high-water mark of the latter. -/

/-- The phase of one `get_or_insert` caller. -/
inductive SFPhase where
  | ready
  | fetching
  | inserting (v : Nat)
  | done (v : Nat)
deriving DecidableEq

/-- Shared cache slot plus per-task phases and producer accounting. -/
structure SFState where
  cache : Option Nat
  tasks : List SFPhase
  invocations : Nat
  active : Nat
  maxActive : Nat
deriving DecidableEq

/-- One scheduler step: run the next await-to-await segment of task `i`. -/
def sfStep (producer : Nat → Nat) (s : SFState) (i : Nat) : SFState :=
  match s.tasks[i]? with
  | none => s
  | some SFPhase.ready =>
    match s.cache with
    | some v => { s with tasks := s.tasks.set i (SFPhase.done v) }
    | none =>
      { s with
        tasks := s.tasks.set i SFPhase.fetching
        invocations := s.invocations + 1
        active := s.active + 1
        maxActive := max s.maxActive (s.active + 1) }
  | some SFPhase.fetching =>
    { s with
      tasks := s.tasks.set i (SFPhase.inserting (producer i))
      active := s.active - 1 }
  | some (SFPhase.inserting v) =>
    { s with cache := some v, tasks := s.tasks.set i (SFPhase.done v) }
  | some (SFPhase.done _) => s

/-- Run a schedule (a list of task indices) from a state. -/
def sfRun (producer : Nat → Nat) (start : SFState) (sched : List Nat) : SFState :=
  sched.foldl (sfStep producer) start

/-- `n` concurrent callers with the same key against an empty cache. -/
def sfInit (n : Nat) : SFState :=
  ⟨none, List.replicate n SFPhase.ready, 0, 0, 0⟩

/-- `n` concurrent callers with the same key when `v` is already cached. -/
def sfInitCached (n v : Nat) : SFState :=
  ⟨some v, List.replicate n SFPhase.ready, 0, 0, 0⟩

/-- Number of tasks still in phase `ready`. -/
def readyCount (s : SFState) : Nat :=
  s.tasks.countP (fun t => decide (t = SFPhase.ready))

/-! ## Theorems -/

/-- C1, amended ("corrected"): `Card::new` succeeds exactly when `width ≥ 100`,
`height ≥ 60`, the offsets do not exceed the `f32`-computed 30% bounds, and the
offsets are below the integer halves of the dimensions.  (The claim's original
four conditions are not sufficient: see the counterexample.) -/
theorem card_new_characterization (w h : Nat) (t d b oc : String) (s : CardSettings) :
    Card.new w h t d b oc s = Except.ok (Card.mk w h t d b oc s) ↔
      (100 ≤ w ∧ 60 ≤ h ∧ s.offset_x ≤ maxOffsetF32 w ∧ s.offset_y ≤ maxOffsetF32 h ∧
       s.offset_x < w / 2 ∧ s.offset_y < h / 2) := by
  unfold Card.new Card.validate
  dsimp only
  split_ifs with h1 h2 h3 h4
  · exact iff_of_false (by simp [Except.map]) (by omega)
  · exact iff_of_false (by simp [Except.map]) (by omega)
  · exact iff_of_false (by simp [Except.map]) (by omega)
  · exact iff_of_false (by simp [Except.map]) (by omega)
  · exact iff_of_true rfl (by omega)

/-- C1, counterexample to the claim as stated: at `width = 100`, `height = 120`,
`offset_x = 40`, `offset_y = 10` all four claimed conditions hold
(`width ≥ 100`, `height ≥ 60`, `offset_x < width/2`, `offset_y < height/2`),
yet construction fails: `Card::validate` also requires
`offset_x ≤ (width as f32 * 0.3) as u32 = 30`. -/
theorem card_new_claim_counterexample :
    (100 ≤ 100 ∧ 60 ≤ 120 ∧ 40 < 100 / 2 ∧ 10 < 120 / 2) ∧
    Card.validate ⟨100, 120, ("t"), ("d"), ("b"), ("c"), ⟨40, 10, false, false, false⟩⟩ =
      Except.error ("Card offset must not exceed 30 percent of width or height") ∧
    maxOffsetF32 100 = 30 := by
  refine ⟨by decide, rfl, by decide⟩

/-- C3 ("confirmed"): `check_rate_limit_with_data` returns `Ok` exactly when the
snapshot has no `remaining` or no `reset` yet, or `remaining ≥ 100`, or the
current time has reached the reset epoch; otherwise it returns
`RateLimitProtection(remaining, reset)`. -/
theorem check_rate_limit_characterization (rl : GitHubRateLimit) (now : Nat) :
    (check_rate_limit_with_data rl now = Except.ok () ↔
      rl.remaining = none ∨ rl.reset = none ∨
      (∃ r, rl.remaining = some r ∧ 100 ≤ r) ∨
      (∃ t, rl.reset = some t ∧ t ≤ now)) ∧
    (∀ r t, rl.remaining = some r → rl.reset = some t → r < 100 → now < t →
      check_rate_limit_with_data rl now = Except.error (r, t)) := by
  obtain ⟨lim, rem, usd, res⟩ := rl
  constructor
  · rcases rem with _ | r <;> rcases res with _ | t
    · exact iff_of_true rfl (Or.inl rfl)
    · exact iff_of_true rfl (Or.inl rfl)
    · exact iff_of_true rfl (Or.inr (Or.inl rfl))
    · constructor
      · intro hok
        simp only [check_rate_limit_with_data] at hok
        split_ifs at hok with hr hn
        · exact Or.inr (Or.inr (Or.inr ⟨t, rfl, by omega⟩))
        · exact Or.inr (Or.inr (Or.inl ⟨r, rfl, by omega⟩))
      · intro hrhs
        have hkey : 100 ≤ r ∨ t ≤ now := by
          rcases hrhs with hno | hno | ⟨r', hr', h100⟩ | ⟨t', ht', hle⟩
          · exact absurd hno (by simp)
          · exact absurd hno (by simp)
          · injection hr' with hrr
            omega
          · injection ht' with htt
            omega
        simp only [check_rate_limit_with_data]
        split_ifs with hr hn
        · omega
        · rfl
        · rfl
  · intro r t hrem hres hr hn
    cases hrem
    cases hres
    simp only [check_rate_limit_with_data]
    rw [if_pos hr, if_pos hn]

/-- C3, witness: a snapshot with `remaining = 50 < 100` and a reset epoch in
the future is rejected with `RateLimitProtection(50, 1000)`. -/
theorem check_rate_limit_characterization_witness :
    check_rate_limit_with_data ⟨some 5000, some 50, some 4950, some 1000⟩ 0 =
      Except.error (50, 1000) :=
  (check_rate_limit_characterization ⟨some 5000, some 50, some 4950, some 1000⟩ 0).2
    50 1000 rfl rfl (by decide) (by decide)

/-- C7, amended ("corrected"): the stats-card height matches the claimed
formulas with `rows` replaced by `max(rows, 1)`; in particular the claimed
formulas hold verbatim whenever at least one counter is visible.  (The source
clamps `lines.len()` to at least `1`.) -/
theorem stats_card_height_formula (c : StatsCard) :
    StatsCard.height c =
      specStatsHeight c.card_settings.hide_title c.card_settings.offset_y
        (max (c.lineLabels).length 1) ∧
    (1 ≤ (c.lineLabels).length →
      StatsCard.height c =
        specStatsHeight c.card_settings.hide_title c.card_settings.offset_y
          (c.lineLabels).length) := by
  constructor
  · unfold StatsCard.height specStatsHeight
    by_cases hh : c.card_settings.hide_title <;> simp [hh] <;> ring
  · intro h1
    unfold StatsCard.height specStatsHeight
    have hmax : max (c.lineLabels).length 1 = (c.lineLabels).length :=
      Nat.max_eq_left h1
    by_cases hh : c.card_settings.hide_title <;> simp [hh, hmax] <;> ring

/-- C7, witness: a card showing two counters (title visible, offsets 12) has
height `19 + 2·27 + 2·12 = 97`, matching the claimed formula at `rows = 2`. -/
theorem stats_card_height_formula_witness :
    StatsCard.height ⟨⟨12, 12, false, false, false⟩, ("alice"), some 1, some 2,
      none, none, none, none, none, none⟩ = specStatsHeight false 12 2 :=
  (stats_card_height_formula ⟨⟨12, 12, false, false, false⟩, ("alice"), some 1, some 2,
    none, none, none, none, none, none⟩).2 (by decide)

/-- C7, counterexample to the claim as stated: with all eight counters hidden
(`rows = 0`) and the title shown, the rendered height is
`19 + 1·27 + 2·12 = 70` (the source clamps the row count to `1`), while the
claimed formula `header + rows·ROW_STEP + 2·offset_y` gives `43`. -/
theorem stats_card_height_claim_counterexample :
    StatsCard.height ⟨⟨12, 12, false, false, false⟩, ("alice"),
      none, none, none, none, none, none, none, none⟩ = 70 ∧
    (StatsCard.lineLabels ⟨⟨12, 12, false, false, false⟩, ("alice"),
      none, none, none, none, none, none, none, none⟩).length = 0 ∧
    specStatsHeight false 12 0 = 43 ∧ (70 : Nat) ≠ 43 := by
  refine ⟨by decide, by decide, by decide, by decide⟩

/-- C8, amended ("corrected"): validation succeeds exactly when the username is
non-empty after trimming, contains no space, has UTF-8 byte length at most 39,
every character is alphanumeric (in the source: Unicode `char::is_alphanumeric`,
not `[A-Za-z0-9]`) or `-`, and it neither starts nor ends with a hyphen. -/
theorem validate_username_characterization (isAlnum : Char → Bool) (u : List Char) :
    validate_username isAlnum u = Except.ok () ↔
      ((trimRust u).isEmpty = false ∧ u.contains ' ' = false ∧
       utf8ByteLength u ≤ 39 ∧
       u.all (fun c => isAlnum c || c == '-') = true ∧
       ¬(u.head? = some '-' ∨ u.getLast? = some '-')) := by
  unfold validate_username
  split_ifs with h1 h2 h3 h4 h5
  · refine iff_of_false (by simp) ?_
    rintro ⟨c1, -, -, -, -⟩
    rw [h1] at c1
    exact Bool.noConfusion c1
  · refine iff_of_false (by simp) ?_
    rintro ⟨-, c2, -, -, -⟩
    rw [h2] at c2
    exact Bool.noConfusion c2
  · exact iff_of_false (by simp) (fun hc => by omega)
  · refine iff_of_false (by simp) ?_
    rintro ⟨-, -, -, c4, -⟩
    rw [c4] at h4
    exact Bool.noConfusion h4
  · exact iff_of_false (by simp) (fun hc => hc.2.2.2.2 h5)
  · refine iff_of_true rfl ?_
    have c1 : (trimRust u).isEmpty = false := Bool.eq_false_iff.mpr h1
    have c2 : u.contains ' ' = false := Bool.eq_false_iff.mpr h2
    have c4 : u.all (fun c => isAlnum c || c == '-') = true := by
      cases hb : u.all (fun c => isAlnum c || c == '-') with
      | false => exact absurd (by rw [hb]; rfl) h4
      | true => rfl
    exact ⟨c1, c2, by omega, c4, h5⟩

/-- C8, counterexample to the claim as stated: the single-character username
`é` (U+00E9) passes validation — Rust's `char::is_alphanumeric` accepts any
Unicode alphanumeric — although `é` is outside the claimed set `[A-Za-z0-9-]`
(witnessed through the ASCII alphanumeric test). -/
theorem validate_username_claim_counterexample :
    validate_username rustIsAlphanumericLatin1 [('é' : Char)] = Except.ok () ∧
    (('é' : Char).isAlphanum || ('é' : Char) == '-') = false := by
  refine ⟨rfl, by decide⟩

/-- C9 ("code_bug"): when the `layout` query parameter is omitted,
`get_langs_card` renders the horizontal layout
(`q.layout.unwrap_or(LayoutTypeQuery::Horizontal)`), not the vertical one the
spec and the repository's own route tests expect. -/
theorem langs_card_default_layout :
    langs_card_layout none = LayoutType.horizontal ∧
    LayoutType.horizontal ≠ LayoutType.vertical := by
  refine ⟨rfl, by decide⟩

/-- C10 ("confirmed"): `into_settings` silently substitutes defaults — an
absent or unparsable `offset_x`/`offset_y` becomes `12`, and an absent
`hide_*` flag, or one differing from the literal `"true"`, becomes `false`;
`into_settings` is total, so no error is produced for these parameters. -/
theorem into_settings_defaults (q : CardSettingsQuery) :
    ((q.offset_x = none ∨ ∃ s, q.offset_x = some s ∧ parse_u32 s = none) →
      (into_settings q).offset_x = 12) ∧
    ((q.offset_y = none ∨ ∃ s, q.offset_y = some s ∧ parse_u32 s = none) →
      (into_settings q).offset_y = 12) ∧
    (∀ s, q.hide_title = some s → (s == "true") = false →
      (into_settings q).hide_title = false) ∧
    (q.hide_title = none → (into_settings q).hide_title = false) ∧
    (∀ s, q.hide_background = some s → (s == "true") = false →
      (into_settings q).hide_background = false) ∧
    (q.hide_background = none → (into_settings q).hide_background = false) ∧
    (∀ s, q.hide_background_stroke = some s → (s == "true") = false →
      (into_settings q).hide_background_stroke = false) ∧
    (q.hide_background_stroke = none →
      (into_settings q).hide_background_stroke = false) := by
  unfold into_settings
  refine ⟨?_, ?_, ?_, ?_, ?_, ?_, ?_, ?_⟩
  · rintro (h | ⟨s, hs, hp⟩)
    · simp [h]
    · simp [hs, hp]
  · rintro (h | ⟨s, hs, hp⟩)
    · simp [h]
    · simp [hs, hp]
  · intro s hs hp
    simp [hs, hp]
  · intro h
    simp [h]
  · intro s hs hp
    simp [hs, hp]
  · intro h
    simp [h]
  · intro s hs hp
    simp [hs, hp]
  · intro h
    simp [h]

/-- C10, witness: `offset_x=abc`, `offset_y=-5`, `hide_title=TRUE`,
`hide_background=1`, `hide_background_stroke=yes` all fall back to the
defaults `12`/`false`. -/
theorem into_settings_defaults_witness :
    (into_settings ⟨some ("abc"), some ("-5"), some ("TRUE"), some ("1"),
        some ("yes")⟩).offset_x = 12 ∧
    (into_settings ⟨some ("abc"), some ("-5"), some ("TRUE"), some ("1"),
        some ("yes")⟩).offset_y = 12 ∧
    (into_settings ⟨some ("abc"), some ("-5"), some ("TRUE"), some ("1"),
        some ("yes")⟩).hide_title = false ∧
    (into_settings ⟨some ("abc"), some ("-5"), some ("TRUE"), some ("1"),
        some ("yes")⟩).hide_background = false ∧
    (into_settings ⟨some ("abc"), some ("-5"), some ("TRUE"), some ("1"),
        some ("yes")⟩).hide_background_stroke = false := by
  refine ⟨?_, ?_, ?_, ?_, ?_⟩
  · exact (into_settings_defaults _).1 (Or.inr ⟨("abc"), rfl, by decide⟩)
  · exact (into_settings_defaults _).2.1 (Or.inr ⟨("-5"), rfl, by decide⟩)
  · exact (into_settings_defaults _).2.2.1 ("TRUE") rfl (by decide)
  · exact (into_settings_defaults _).2.2.2.2.1 ("1") rfl (by decide)
  · exact (into_settings_defaults _).2.2.2.2.2.2.1 ("yes") rfl (by decide)

/-- C4 ("confirmed"): the ranking score is `size ^ a * count ^ b` with
`0 ^ 0 = 1`, and concretely `rank(1000,10,1,0) = 1000`,
`rank(1000,10,0,1) = 10`, and `rank(2500,10,1/2,1/2)` is within `1/100`
of `158.11` (it equals `50·√10 = 158.1138…`). -/
theorem rank_values :
    (∀ (s : LanguageStat) (a b : ℝ),
      s.rank a b = (s.size_bytes : ℝ) ^ a * (s.repo_count : ℝ) ^ b) ∧
    (∀ s : LanguageStat, s.rank 1 0 = (s.size_bytes : ℝ)) ∧
    (∀ s : LanguageStat, s.rank 0 1 = (s.repo_count : ℝ)) ∧
    LanguageStat.rank ⟨("None"), 0, 0⟩ 0 0 = 1 ∧
    LanguageStat.rank ⟨("Rust"), 1000, 10⟩ 1 0 = 1000 ∧
    LanguageStat.rank ⟨("Rust"), 1000, 10⟩ 0 1 = 10 ∧
    |LanguageStat.rank ⟨("Rust"), 2500, 10⟩ (1 / 2) (1 / 2) - 158.11| < 1 / 100 := by
  refine ⟨fun s a b => rfl, ?_, ?_, ?_, ?_, ?_, ?_⟩
  · intro s
    rw [LanguageStat.rank, Real.rpow_one, Real.rpow_zero, mul_one]
  · intro s
    rw [LanguageStat.rank, Real.rpow_zero, Real.rpow_one, one_mul]
  · rw [LanguageStat.rank]
    norm_num [Real.rpow_zero]
  · rw [LanguageStat.rank, Real.rpow_one, Real.rpow_zero, mul_one]
    norm_num
  · rw [LanguageStat.rank, Real.rpow_zero, Real.rpow_one, one_mul]
    norm_num
  · rw [LanguageStat.rank]
    have hc1 : ((⟨("Rust"), 2500, 10⟩ : LanguageStat).size_bytes : ℝ) = 2500 := by norm_num
    have hc2 : ((⟨("Rust"), 2500, 10⟩ : LanguageStat).repo_count : ℝ) = 10 := by norm_num
    rw [hc1, hc2, ← Real.sqrt_eq_rpow, ← Real.sqrt_eq_rpow]
    have h50 : Real.sqrt 2500 = 50 := by
      rw [show (2500 : ℝ) = 50 ^ 2 by norm_num]
      exact Real.sqrt_sq (by norm_num)
    rw [h50, abs_lt]
    have hlo : (3.1621 : ℝ) < Real.sqrt 10 :=
      (Real.lt_sqrt (by norm_num)).mpr (by norm_num)
    have hhi : Real.sqrt 10 < 3.1623 :=
      (Real.sqrt_lt' (by norm_num)).mpr (by norm_num)
    constructor <;> nlinarith [hlo, hhi]

/-- C5 ("confirmed"): for all stats and weights, `ranked` is sorted in
non-increasing order of score (each element's score is ≥ every later one's),
and `top_n` is exactly the first `n` entries of `ranked`. -/
theorem ranked_descending_top_n_take (l : List LanguageStat) (a b : ℝ) (n : Nat) :
    (ranked l a b).Pairwise (fun s t => t.rank a b ≤ s.rank a b) ∧
    top_n l a b n = (ranked l a b).take n := by
  refine ⟨?_, rfl⟩
  unfold ranked
  rw [List.pairwise_map]
  have htrans : ∀ x y z : ℝ × LanguageStat,
      (fun x y : ℝ × LanguageStat => decide (y.1 ≤ x.1)) x y = true →
      (fun x y : ℝ × LanguageStat => decide (y.1 ≤ x.1)) y z = true →
      (fun x y : ℝ × LanguageStat => decide (y.1 ≤ x.1)) x z = true := by
    intro x y z hxy hyz
    simp only [decide_eq_true_eq] at *
    exact le_trans hyz hxy
  have htotal : ∀ x y : ℝ × LanguageStat,
      ((fun x y : ℝ × LanguageStat => decide (y.1 ≤ x.1)) x y ||
       (fun x y : ℝ × LanguageStat => decide (y.1 ≤ x.1)) y x) = true := by
    intro x y
    simp only [Bool.or_eq_true, decide_eq_true_eq]
    exact le_total y.1 x.1
  have hsorted :=
    @List.sorted_mergeSort (ℝ × LanguageStat)
      (fun x y : ℝ × LanguageStat => decide (y.1 ≤ x.1)) htrans htotal
      (l.map fun s => (s.rank a b, s))
  refine List.Pairwise.imp_of_mem ?_ hsorted
  intro x y hx hy hxy
  have hmem : ∀ z : ℝ × LanguageStat,
      z ∈ (l.map fun s => (s.rank a b, s)).mergeSort
        (fun x y : ℝ × LanguageStat => decide (y.1 ≤ x.1)) →
      z.1 = z.2.rank a b := by
    intro z hz
    have hz' : z ∈ l.map fun s => (s.rank a b, s) :=
      (List.mergeSort_perm _ _).subset hz
    obtain ⟨s, -, rfl⟩ := List.mem_map.mp hz'
    rfl
  have h1 := hmem x hx
  have h2 := hmem y hy
  have : y.1 ≤ x.1 := by simpa using hxy
  rw [h1, h2] at this
  exact this

/-- Filtering commutes with mapping a function that preserves the predicate. -/
theorem filter_map_pres {α : Type _} (f : α → α) (p : α → Bool)
    (h : ∀ a, p (f a) = p a) :
    ∀ l : List α, (l.map f).filter p = (l.filter p).map f := by
  intro l
  induction l with
  | nil => rfl
  | cons a t ih =>
    simp only [List.map_cons, List.filter_cons, h]
    cases hp : p a
    · simpa [hp] using ih
    · simpa [hp] using ih

/-- `applyEdges` on an edge with no stat yet creates the singleton stat. -/
theorem applyEdges_cons_nil (n : String) (m : LangEdge) (rest : List LangEdge) :
    applyEdges n [] (m :: rest) = applyEdges n [⟨n, m.size_bytes, 1⟩] rest := rfl

/-- `applyEdges` on an edge with existing stats updates every one of them. -/
theorem applyEdges_cons_cons (n : String) (hd : LanguageStat) (tl : List LanguageStat)
    (m : LangEdge) (rest : List LangEdge) :
    applyEdges n (hd :: tl) (m :: rest) =
      applyEdges n ((hd :: tl).map (LanguageStat.updateWith m)) rest := rfl

/-- One `from_edges` iteration, seen through the filter for one name `n`:
for an edge of that name it either creates the stat or updates the existing
ones; for any other name the filtered view is unchanged. -/
theorem foldl_addEdge_filter (n : String) :
    ∀ (edges : List LangEdge) (acc : List LanguageStat),
      (edges.foldl addEdge acc).filter (fun s => s.name == n) =
        applyEdges n (acc.filter (fun s => s.name == n))
          (edges.filter (fun e => e.name == n)) := by
  intro edges
  induction edges with
  | nil => intro acc; rfl
  | cons e es ih =>
    intro acc
    rw [List.foldl_cons, ih (addEdge acc e), List.filter_cons]
    by_cases he : (e.name == n) = true
    · have hen : e.name = n := by simpa using he
      subst hen
      rw [if_pos he]
      have hpres : ∀ s : LanguageStat,
          ((if s.name == e.name then LanguageStat.updateWith e s else s).name == e.name) =
            (s.name == e.name) := by
        intro s
        by_cases hs : (s.name == e.name) = true
        · simp [hs, LanguageStat.updateWith]
        · simp [hs]
      cases hfil : acc.filter (fun s => s.name == e.name) with
      | nil =>
        rw [applyEdges_cons_nil]
        have ha : ¬acc.any (fun s => s.name == e.name) = true := by
          intro ha'
          obtain ⟨x, hx, hpx⟩ := List.any_eq_true.mp ha'
          exact absurd hpx (List.filter_eq_nil_iff.mp hfil x hx)
        have harg : (addEdge acc e).filter (fun s => s.name == e.name) =
            [(⟨e.name, e.size_bytes, 1⟩ : LanguageStat)] := by
          unfold addEdge
          rw [if_neg ha, List.filter_append, hfil]
          simp
        rw [harg]
      | cons hd tl =>
        rw [applyEdges_cons_cons]
        have hhd : hd ∈ acc.filter (fun s => s.name == e.name) := by
          rw [hfil]
          exact List.mem_cons_self _ _
        have hpd := List.of_mem_filter hhd
        have ha : acc.any (fun s => s.name == e.name) = true :=
          List.any_eq_true.mpr ⟨hd, List.mem_of_mem_filter hhd, hpd⟩
        have harg : (addEdge acc e).filter (fun s => s.name == e.name) =
            (hd :: tl).map (LanguageStat.updateWith e) := by
          unfold addEdge
          rw [if_pos ha, filter_map_pres _ _ hpres, hfil]
          refine List.map_congr_left ?_
          intro a haf
          have haf' : a ∈ acc.filter (fun s => s.name == e.name) := by
            rw [hfil]
            exact haf
          have hpa := List.of_mem_filter haf'
          rw [if_pos hpa]
        rw [harg]
    · rw [if_neg he]
      have harg : (addEdge acc e).filter (fun s => s.name == n) =
          acc.filter (fun s => s.name == n) := by
        unfold addEdge
        have hpres : ∀ s : LanguageStat,
            ((if s.name == e.name then LanguageStat.updateWith e s else s).name == n) =
              (s.name == n) := by
          intro s
          by_cases hs : (s.name == e.name) = true
          · simp [hs, LanguageStat.updateWith]
          · simp [hs]
        by_cases ha : acc.any (fun s => s.name == e.name) = true
        · rw [if_pos ha, filter_map_pres _ _ hpres]
          refine Eq.trans (List.map_congr_left ?_) (List.map_id _)
          intro a haf
          have hpa := List.of_mem_filter haf
          have hane : (a.name == e.name) = false := by
            have h1 : a.name = n := by simpa using hpa
            have h2 : e.name ≠ n := by simpa using he
            rw [h1]
            simp
            exact fun hc => h2 hc.symm
          simp [hane]
        · rw [if_neg ha, List.filter_append]
          have hne : ((⟨e.name, e.size_bytes, 1⟩ : LanguageStat).name == n) = false := by
            simpa using he
          simp [hne]
      rw [harg]

/-- Replaying the edges of one language onto a single existing stat adds the
byte total and the edge count. -/
theorem applyEdges_singleton (n : String) :
    ∀ (ms : List LangEdge) (s : LanguageStat),
      applyEdges n [s] ms =
        [⟨s.name, s.size_bytes + (ms.map LangEdge.size_bytes).sum,
          s.repo_count + ms.length⟩] := by
  intro ms
  induction ms with
  | nil => intro s; simp [applyEdges]
  | cons m rest ih =>
    intro s
    rw [applyEdges_cons_cons]
    show applyEdges n [LanguageStat.updateWith m s] rest = _
    rw [ih]
    simp [LanguageStat.updateWith, Nat.add_assoc]
    omega

/-- Replaying the edges of one language starting from no stat yields exactly
one stat carrying the byte sum and the edge count (or none if there are no
edges). -/
theorem applyEdges_nil (n : String) (ms : List LangEdge) :
    applyEdges n [] ms =
      if ms.isEmpty then []
      else [⟨n, (ms.map LangEdge.size_bytes).sum, ms.length⟩] := by
  cases ms with
  | nil => rfl
  | cons m rest =>
    rw [applyEdges_cons_nil, applyEdges_singleton]
    simp [Nat.add_comm]

/-- C6 ("confirmed"): `from_edges` groups edges by language name — for every
name, the output contains exactly one stat when the name occurs among the
edges (with `size_bytes` the sum of that name's edge sizes and `repo_count`
the number of that name's edges) and none otherwise; and the concrete
scenario `from_edges [{Rust,1000},{Rust,500},{Python,2000}]` yields
`{Rust: size 1500, count 2}` and `{Python: size 2000, count 1}`. -/
theorem from_edges_grouping :
    (∀ (edges : List LangEdge) (n : String),
      (from_edges edges).filter (fun s => s.name == n) =
        if (edges.filter (fun e => e.name == n)).isEmpty then []
        else
          [⟨n, ((edges.filter (fun e => e.name == n)).map LangEdge.size_bytes).sum,
            (edges.filter (fun e => e.name == n)).length⟩]) ∧
    (from_edges [⟨("Rust"), 1000⟩, ⟨("Rust"), 500⟩, ⟨("Python"), 2000⟩]).filter
      (fun s => s.name == ("Rust")) = [⟨("Rust"), 1500, 2⟩] ∧
    (from_edges [⟨("Rust"), 1000⟩, ⟨("Rust"), 500⟩, ⟨("Python"), 2000⟩]).filter
      (fun s => s.name == ("Python")) = [⟨("Python"), 2000, 1⟩] ∧
    (from_edges [⟨("Rust"), 1000⟩, ⟨("Rust"), 500⟩, ⟨("Python"), 2000⟩]).length = 2 := by
  refine ⟨?_, by decide, by decide, by decide⟩
  intro edges n
  unfold from_edges
  rw [foldl_addEdge_filter, List.filter_nil, applyEdges_nil]

/-- `countP` across a single `set`, bookkeeping the replaced element. -/
theorem countP_set_add {α : Type _} (p : α → Bool) :
    ∀ (l : List α) (i : Nat) (a x : α), l[i]? = some a →
      (l.set i x).countP p + (if p a then 1 else 0) =
        l.countP p + (if p x then 1 else 0) := by
  intro l
  induction l with
  | nil => intro i a x h; simp at h
  | cons b t ih =>
    intro i a x h
    cases i with
    | zero =>
      simp only [List.getElem?_cons_zero, Option.some.injEq] at h
      subst h
      simp only [List.set_cons_zero, List.countP_cons]
      omega
    | succ j =>
      simp only [List.getElem?_cons_succ] at h
      have hih := ih j a x h
      simp only [List.set_cons_succ, List.countP_cons]
      omega

/-- One scheduler step never increases `invocations + readyCount`: a producer
invocation consumes a `ready` task, and a cache hit just retires one. -/
theorem sfStep_invCount (producer : Nat → Nat) (s : SFState) (i : Nat) :
    (sfStep producer s i).invocations + readyCount (sfStep producer s i) ≤
      s.invocations + readyCount s := by
  unfold sfStep readyCount
  cases hg : s.tasks[i]? with
  | none => simp [hg]
  | some ph =>
    cases ph with
    | ready =>
      cases hc : s.cache with
      | some v =>
        simp only [hg, hc]
        have hcount := countP_set_add (fun t => decide (t = SFPhase.ready))
          s.tasks i SFPhase.ready (SFPhase.done v) hg
        simp at hcount
        omega
      | none =>
        simp only [hg, hc]
        have hcount := countP_set_add (fun t => decide (t = SFPhase.ready))
          s.tasks i SFPhase.ready SFPhase.fetching hg
        simp at hcount
        omega
    | fetching =>
      simp only [hg]
      have hcount := countP_set_add (fun t => decide (t = SFPhase.ready))
        s.tasks i SFPhase.fetching (SFPhase.inserting (producer i)) hg
      simp at hcount
      omega
    | inserting v =>
      simp only [hg]
      have hcount := countP_set_add (fun t => decide (t = SFPhase.ready))
        s.tasks i (SFPhase.inserting v) (SFPhase.done v) hg
      simp at hcount
      omega
    | done v => simp [hg]

/-- Running any schedule never increases `invocations + readyCount`. -/
theorem sfRun_invCount (producer : Nat → Nat) :
    ∀ (sched : List Nat) (s : SFState),
      (sfRun producer s sched).invocations + readyCount (sfRun producer s sched) ≤
        s.invocations + readyCount s := by
  intro sched
  induction sched with
  | nil => intro s; exact le_refl _
  | cons i rest ih =>
    intro s
    exact le_trans (ih (sfStep producer s i)) (sfStep_invCount producer s i)

/-- One step preserves the cached-run invariant: value cached, no producer
invocation, every task either still `ready` or retired with the cached value. -/
theorem sfStep_cached (producer : Nat → Nat) (v : Nat) (s : SFState) (i : Nat)
    (h1 : s.cache = some v) (h2 : s.invocations = 0)
    (h3 : ∀ t ∈ s.tasks, t = SFPhase.ready ∨ t = SFPhase.done v) :
    (sfStep producer s i).cache = some v ∧ (sfStep producer s i).invocations = 0 ∧
      ∀ t ∈ (sfStep producer s i).tasks, t = SFPhase.ready ∨ t = SFPhase.done v := by
  unfold sfStep
  cases hg : s.tasks[i]? with
  | none => simp only [hg]; exact ⟨h1, h2, h3⟩
  | some ph =>
    have hmem := List.getElem?_mem hg
    rcases h3 ph hmem with rfl | rfl
    · rw [h1]
      refine ⟨rfl, h2, ?_⟩
      intro t ht
      rcases List.mem_or_eq_of_mem_set ht with hmem' | rfl
      · exact h3 t hmem'
      · exact Or.inr rfl
    · exact ⟨h1, h2, h3⟩

/-- Running any schedule preserves the cached-run invariant. -/
theorem sfRun_cached (producer : Nat → Nat) (v : Nat) :
    ∀ (sched : List Nat) (s : SFState),
      s.cache = some v → s.invocations = 0 →
      (∀ t ∈ s.tasks, t = SFPhase.ready ∨ t = SFPhase.done v) →
      (sfRun producer s sched).cache = some v ∧
        (sfRun producer s sched).invocations = 0 ∧
        ∀ t ∈ (sfRun producer s sched).tasks,
          t = SFPhase.ready ∨ t = SFPhase.done v := by
  intro sched
  induction sched with
  | nil => intro s h1 h2 h3; exact ⟨h1, h2, h3⟩
  | cons i rest ih =>
    intro s h1 h2 h3
    obtain ⟨g1, g2, g3⟩ := sfStep_cached producer v s i h1 h2 h3
    exact ih (sfStep producer s i) g1 g2 g3

/-- C2, amended ("corrected"): `get_or_insert` does not provide single-flight.
What does hold: the producer is invoked at most once per caller (so at most
`n` times for `n` same-key callers, possibly concurrently), and callers that
find a value already cached observe it and never invoke the producer. -/
theorem get_or_insert_behavior (producer : Nat → Nat) (sched : List Nat) (n v : Nat) :
    (sfRun producer (sfInit n) sched).invocations ≤ n ∧
    ((sfRun producer (sfInitCached n v) sched).cache = some v ∧
     (sfRun producer (sfInitCached n v) sched).invocations = 0 ∧
     (sfRun producer (sfInitCached n v) sched).tasks.all
       (fun t => decide (t = SFPhase.ready ∨ t = SFPhase.done v)) = true) := by
  constructor
  · have hrun := sfRun_invCount producer sched (sfInit n)
    have hready : readyCount (sfInit n) = n := by
      simp [readyCount, sfInit, List.countP_replicate]
    have hinv : (sfInit n).invocations = 0 := rfl
    omega
  · have htasks : ∀ t ∈ (sfInitCached n v).tasks,
        t = SFPhase.ready ∨ t = SFPhase.done v :=
      fun t ht => Or.inl (List.eq_of_mem_replicate ht)
    obtain ⟨g1, g2, g3⟩ :=
      sfRun_cached producer v sched (sfInitCached n v) rfl rfl htasks
    refine ⟨g1, g2, ?_⟩
    rw [List.all_eq_true]
    intro t ht
    exact decide_eq_true (g3 t ht)

/-- C2, counterexample to the claim as stated: two callers of `get_or_insert`
with the same key, interleaved as miss/miss before either insert, each run
their own producer — two producers are concurrently in flight
(`maxActive = 2`), both run to completion (`invocations = 2`), and the two
waiters observe different results (`done 1` vs `done 2`). -/
theorem single_flight_claim_counterexample :
    (sfRun (fun i => i + 1) (sfInit 2) [0, 1, 0, 0, 1, 1]).maxActive = 2 ∧
    (sfRun (fun i => i + 1) (sfInit 2) [0, 1, 0, 0, 1, 1]).invocations = 2 ∧
    (sfRun (fun i => i + 1) (sfInit 2) [0, 1, 0, 0, 1, 1]).tasks =
      [SFPhase.done 1, SFPhase.done 2] := by
  refine ⟨rfl, rfl, by decide⟩

end Statcrab
